import Mathlib

/-!
Verification of the ETH investment dashboard's core computation modules.

Each Python function under scrutiny is shallowly embedded as a Lean
definition over `ℚ` (Python floats are modelled as exact rationals; a
float `NaN` arising from pandas missing values is modelled as `none` in
`Option ℚ`).  A Python function that can raise and be caught (returning
`None`) is modelled with `Option`: `none` is the error value.  Dictionary
results become structures; a dictionary key that may be absent becomes an
`Option` field.
-/

namespace RiskManager

/-- Result dictionary of `ETHRiskManager.calculate_position_size`
(src/eth_risk_manager.py lines 100-108).  The human-readable
`explanation` string is not modelled. -/
structure PositionSize where
  position_size_coins : ℚ
  position_size_dollars : ℚ
  risk_amount : ℚ
  risk_per_coin : ℚ
  portfolio_percentage : ℚ
  max_position_dollars : ℚ
deriving DecidableEq, Repr

/-- Embedding of `ETHRiskManager.calculate_position_size`
(src/eth_risk_manager.py lines 44-114).  The three `ZeroDivisionError`
possibilities of the Python body (division by `entry_price` when clamping,
by `max_risk_per_trade` in the clamp-branch explanation string, and by
`portfolio_value` for the percentage fields) are caught by the Python
`except` clause and yield `None`; they appear here as explicit guards. -/
def calculate_position_size (portfolio_value max_risk_per_trade max_portfolio_exposure
    entry_price stop_loss_price : ℚ) : Option PositionSize :=
  let risk_amount := portfolio_value * max_risk_per_trade
  if entry_price ≤ stop_loss_price then none
  else
    let risk_per_coin := entry_price - stop_loss_price
    let position_size_coins := risk_amount / risk_per_coin
    let position_size_dollars := position_size_coins * entry_price
    let max_position_dollars := portfolio_value * max_portfolio_exposure
    if max_position_dollars < position_size_dollars then
      -- clamp branch: divides by entry_price, portfolio_value and
      -- max_risk_per_trade (the latter inside the explanation f-string)
      if entry_price = 0 ∨ portfolio_value = 0 ∨ max_risk_per_trade = 0 then none
      else
        some ⟨max_position_dollars / entry_price, max_position_dollars, risk_amount,
          risk_per_coin, max_position_dollars / portfolio_value, max_position_dollars⟩
    else
      -- portfolio_percentage divides by portfolio_value
      if portfolio_value = 0 then none
      else
        some ⟨position_size_coins, position_size_dollars, risk_amount, risk_per_coin,
          position_size_dollars / portfolio_value, max_position_dollars⟩

/-- Result dictionary of `ETHRiskManager.calculate_trailing_stop`
(src/eth_risk_manager.py lines 295-333).  Fields that merely echo the
inputs, and the explanation string, are not modelled. -/
structure TrailingStop where
  trailing_stop_price : ℚ
  is_adjusted : Bool
deriving DecidableEq, Repr

/-- Embedding of `ETHRiskManager.calculate_trailing_stop`
(src/eth_risk_manager.py lines 282-337). -/
def calculate_trailing_stop (entry_price current_price initial_stop_price
    trail_percentage : ℚ) : TrailingStop :=
  if current_price ≤ entry_price then ⟨initial_stop_price, false⟩
  else
    let trail_amount := current_price * (trail_percentage / 100)
    let trailing_stop := current_price - trail_amount
    if initial_stop_price < trailing_stop then ⟨trailing_stop, true⟩
    else ⟨initial_stop_price, false⟩

end RiskManager

open RiskManager

/-- C1: with `entry_price > stop_loss_price` (and nonzero `entry_price`,
`portfolio_value`, `max_risk_per_trade`, without which the Python body
aborts with a `ZeroDivisionError` and returns `None`),
`calculate_position_size` returns a result whose `risk_amount` is
`portfolio_value * max_risk_per_trade` and `risk_per_coin` is
`entry_price - stop_loss_price`; the raw size is
`risk_amount / risk_per_coin` coins, i.e. `risk_amount / risk_per_coin *
entry_price` dollars, and whenever that exceeds the exposure cap
`portfolio_value * max_portfolio_exposure` the dollar size is clamped to
exactly the cap with the coins recomputed as `cap / entry_price`; the
returned dollar size never exceeds the cap. -/
theorem calculate_position_size_spec (pv mrpt mpe entry stop : ℚ)
    (hes : stop < entry) (he : entry ≠ 0) (hpv : pv ≠ 0) (hm : mrpt ≠ 0) :
    ∃ r, calculate_position_size pv mrpt mpe entry stop = some r ∧
      r.risk_amount = pv * mrpt ∧
      r.risk_per_coin = entry - stop ∧
      (pv * mpe < pv * mrpt / (entry - stop) * entry →
        r.position_size_dollars = pv * mpe ∧
        r.position_size_coins = pv * mpe / entry) ∧
      (pv * mrpt / (entry - stop) * entry ≤ pv * mpe →
        r.position_size_coins = pv * mrpt / (entry - stop) ∧
        r.position_size_dollars = pv * mrpt / (entry - stop) * entry) ∧
      r.position_size_dollars ≤ pv * mpe := by
  unfold calculate_position_size
  rw [if_neg (not_le.mpr hes)]
  by_cases hclamp : pv * mpe < pv * mrpt / (entry - stop) * entry
  · rw [if_pos hclamp, if_neg (by push_neg; exact ⟨he, hpv, hm⟩)]
    exact ⟨_, rfl, rfl, rfl, fun _ => ⟨rfl, rfl⟩,
      fun hle => absurd hclamp (not_lt.mpr hle), le_refl _⟩
  · rw [if_neg hclamp, if_neg hpv]
    exact ⟨_, rfl, rfl, rfl, fun hlt => absurd hlt hclamp,
      fun _ => ⟨rfl, rfl⟩, not_lt.mp hclamp⟩

/-- C1 witness: the spec's worked example.  Entry 3000, stop 2800,
portfolio 10000, max risk 2%, max exposure 25% gives risk amount 200,
raw size 3000 dollars, clamped to 2500 dollars = 5/6 coins. -/
theorem calculate_position_size_spec_witness :
    calculate_position_size 10000 (1/50) (1/4) 3000 2800 =
      some ⟨5/6, 2500, 200, 200, 1/4, 2500⟩ ∧
    ∃ r, calculate_position_size 10000 (1/50) (1/4) 3000 2800 = some r ∧
      r.position_size_dollars ≤ 10000 * (1/4) := by
  refine ⟨by norm_num [calculate_position_size], ?_⟩
  obtain ⟨r, hr, -, -, -, -, hle⟩ :=
    calculate_position_size_spec 10000 (1/50) (1/4) 3000 2800
      (by norm_num) (by norm_num) (by norm_num) (by norm_num)
  exact ⟨r, hr, hle⟩

/-- C1 counterexample: with a zero portfolio value and `entry > stop` the
Python body divides `position_size_dollars` by `portfolio_value` and the
resulting `ZeroDivisionError` makes the call return `None`: there is no
result at all, contradicting the unconditional claim. -/
theorem calculate_position_size_zero_portfolio_counterexample :
    (2800 : ℚ) < 3000 ∧
    calculate_position_size 0 (1 / 50) (1 / 4) 3000 2800 = none := by
  constructor
  · norm_num
  · norm_num [calculate_position_size]

/-- C7: whenever `entry_price ≤ stop_loss_price`, `calculate_position_size`
fails and returns the error value `None` instead of a position, for every
portfolio value, risk and exposure configuration. -/
theorem calculate_position_size_invalid_input (pv mrpt mpe entry stop : ℚ)
    (h : entry ≤ stop) :
    calculate_position_size pv mrpt mpe entry stop = none := by
  unfold calculate_position_size
  rw [if_pos h]

/-- C7 witness: entry 2800 below stop 3000 yields no result. -/
theorem calculate_position_size_invalid_input_witness :
    (2800 : ℚ) ≤ 3000 ∧
    calculate_position_size 10000 (1/50) (1/4) 2800 3000 = none :=
  ⟨by norm_num,
    calculate_position_size_invalid_input 10000 (1/50) (1/4) 2800 3000 (by norm_num)⟩

/-- C5: `calculate_trailing_stop` returns the initial stop when
`current_price ≤ entry_price`, and otherwise the maximum of the initial
stop and `current_price * (1 - trail_percentage/100)`; the returned stop
is never below the initial stop, and feeding a returned stop back in as
the next initial stop can never lower it, whatever the next current
price. -/
theorem calculate_trailing_stop_spec (entry current stop trail : ℚ) :
    ((current ≤ entry →
      (calculate_trailing_stop entry current stop trail).trailing_stop_price = stop) ∧
     (entry < current →
      (calculate_trailing_stop entry current stop trail).trailing_stop_price =
        max stop (current * (1 - trail / 100)))) ∧
    stop ≤ (calculate_trailing_stop entry current stop trail).trailing_stop_price ∧
    ∀ next : ℚ,
      (calculate_trailing_stop entry current stop trail).trailing_stop_price ≤
        (calculate_trailing_stop entry next
          (calculate_trailing_stop entry current stop trail).trailing_stop_price
          trail).trailing_stop_price := by
  have key : ∀ c s : ℚ,
      s ≤ (calculate_trailing_stop entry c s trail).trailing_stop_price := by
    intro c s
    unfold calculate_trailing_stop
    split
    · rfl
    · dsimp only
      split
      · next h => exact le_of_lt h
      · rfl
  refine ⟨⟨?_, ?_⟩, key current stop, fun next => key next _⟩
  · intro h
    unfold calculate_trailing_stop
    rw [if_pos h]
  · intro h
    unfold calculate_trailing_stop
    rw [if_neg (not_le.mpr h)]
    simp only
    have harith : current - current * (trail / 100) = current * (1 - trail / 100) := by ring
    split
    · next hlt => rw [harith] at hlt ⊢; exact (max_eq_right (le_of_lt hlt)).symm
    · next hnlt =>
        rw [harith] at hnlt
        exact (max_eq_left (not_lt.mp hnlt)).symm

/-- C5 witness: entry 100, current 110, initial stop 95, trail 10% gives
`max 95 99 = 99`, and the step lemma applies at these inputs. -/
theorem calculate_trailing_stop_spec_witness :
    (calculate_trailing_stop 100 110 95 10).trailing_stop_price =
      max 95 (110 * (1 - 10 / 100)) ∧
    (95 : ℚ) ≤ (calculate_trailing_stop 100 110 95 10).trailing_stop_price :=
  ⟨(calculate_trailing_stop_spec 100 110 95 10).1.2 (by norm_num),
   (calculate_trailing_stop_spec 100 110 95 10).2.1⟩

namespace TechnicalAnalysis

/-- Arithmetic mean of a list, as computed by `np.mean` (sum divided by
length; only applied to nonempty lists in the source). -/
def listMean (l : List ℚ) : ℚ := l.sum / l.length

/-- Consecutive differences, as computed by `np.diff`:
`d i = prices (i+1) - prices i`. -/
def npDiff (l : List ℚ) : List ℚ := List.zipWith (fun a b => b - a) l l.tail

/-- Average gain over the first `window` price differences
(src/eth_technical_analysis.py lines 48-55): negative moves are zeroed. -/
def rsiAvgGain (prices : List ℚ) (window : ℕ) : ℚ :=
  listMean (((npDiff prices).map fun d => if d < 0 then 0 else d).take window)

/-- Average loss over the first `window` price differences
(src/eth_technical_analysis.py lines 49-56): positive moves are zeroed,
then the absolute value is taken. -/
def rsiAvgLoss (prices : List ℚ) (window : ℕ) : ℚ :=
  listMean (((npDiff prices).map fun d => |if 0 < d then 0 else d|).take window)

/-- Embedding of `ETHTechnicalAnalysis.calculate_rsi`
(src/eth_technical_analysis.py lines 25-69). -/
def calculate_rsi (prices : List ℚ) (window : ℕ) : ℚ :=
  if prices.length < window + 1 then 50
  else if rsiAvgLoss prices window = 0 then 100
  else 100 - 100 / (1 + rsiAvgGain prices window / rsiAvgLoss prices window)

theorem rsiAvgGain_nonneg (prices : List ℚ) (window : ℕ) :
    0 ≤ rsiAvgGain prices window := by
  unfold rsiAvgGain listMean
  refine div_nonneg (List.sum_nonneg ?_) (Nat.cast_nonneg _)
  intro x hx
  obtain ⟨d, -, rfl⟩ := List.mem_map.mp (List.mem_of_mem_take hx)
  split <;> simp_all [le_of_lt]

theorem rsiAvgLoss_nonneg (prices : List ℚ) (window : ℕ) :
    0 ≤ rsiAvgLoss prices window := by
  unfold rsiAvgLoss listMean
  refine div_nonneg (List.sum_nonneg ?_) (Nat.cast_nonneg _)
  intro x hx
  obtain ⟨d, -, rfl⟩ := List.mem_map.mp (List.mem_of_mem_take hx)
  exact abs_nonneg _

theorem npDiff_replicate (n : ℕ) (c : ℚ) :
    npDiff (List.replicate n c) = List.replicate (n - 1) 0 := by
  cases n with
  | zero => rfl
  | succ m =>
      simp only [Nat.add_sub_cancel]
      induction m with
      | zero => rfl
      | succ k ih =>
          have : List.replicate (k + 2) c = c :: List.replicate (k + 1) c := rfl
          simp only [npDiff] at ih ⊢
          simp_all [List.replicate_succ, List.zipWith]

end TechnicalAnalysis

open TechnicalAnalysis

/-- C6: `calculate_rsi` returns the neutral value 50 when fewer than
`window + 1` samples are supplied; with enough samples it returns 100
exactly when the average loss over the first `window` differences is 0
(in particular on every constant series of sufficient length), and
otherwise returns `100 - 100 / (1 + avg_gain / avg_loss)`, which always
lies in `[0, 100]`. -/
theorem calculate_rsi_spec (prices : List ℚ) (window : ℕ) (hw : 1 ≤ window) :
    (prices.length < window + 1 → calculate_rsi prices window = 50) ∧
    (window + 1 ≤ prices.length →
      ((calculate_rsi prices window = 100) ↔ rsiAvgLoss prices window = 0) ∧
      (rsiAvgLoss prices window ≠ 0 →
        calculate_rsi prices window =
          100 - 100 / (1 + rsiAvgGain prices window / rsiAvgLoss prices window)) ∧
      0 ≤ calculate_rsi prices window ∧ calculate_rsi prices window ≤ 100) ∧
    (∀ (n : ℕ) (c : ℚ), window + 1 ≤ n →
      calculate_rsi (List.replicate n c) window = 100) := by
  refine ⟨fun hlt => by rw [calculate_rsi, if_pos hlt], fun hge => ?_, ?_⟩
  · have hnlt : ¬ prices.length < window + 1 := not_lt.mpr hge
    by_cases hz : rsiAvgLoss prices window = 0
    · rw [calculate_rsi, if_neg hnlt, if_pos hz]
      exact ⟨⟨fun _ => hz, fun _ => rfl⟩, fun h => absurd hz h, by norm_num, by norm_num⟩
    · rw [calculate_rsi, if_neg hnlt, if_neg hz]
      have hlpos : 0 < rsiAvgLoss prices window :=
        lt_of_le_of_ne (rsiAvgLoss_nonneg prices window) (Ne.symm hz)
      have hrs : 0 ≤ rsiAvgGain prices window / rsiAvgLoss prices window :=
        div_nonneg (rsiAvgGain_nonneg prices window) (le_of_lt hlpos)
      have hfrac_pos : 0 < 100 / (1 + rsiAvgGain prices window / rsiAvgLoss prices window) :=
        div_pos (by norm_num) (by linarith)
      have hfrac_le : 100 / (1 + rsiAvgGain prices window / rsiAvgLoss prices window) ≤ 100 :=
        div_le_self (by norm_num) (by linarith)
      refine ⟨⟨fun h100 => absurd h100 (by linarith), fun h => absurd h hz⟩,
        fun _ => rfl, by linarith, by linarith⟩
  · intro n c hn
    have hzero : rsiAvgLoss (List.replicate n c) window = 0 := by
      rw [rsiAvgLoss, npDiff_replicate, List.map_replicate, List.take_replicate]
      simp [listMean]
    rw [calculate_rsi, if_neg (by simpa using not_lt.mpr hn), if_pos hzero]

/-- C6 witness: a constant series of 15 samples has RSI 100 at the
default 14-sample window, and a too-short series falls back to 50. -/
theorem calculate_rsi_spec_witness :
    calculate_rsi (List.replicate 15 7) 14 = 100 ∧ calculate_rsi [] 14 = 50 :=
  ⟨(calculate_rsi_spec (List.replicate 15 7) 14 (by norm_num)).2.2 15 7 (by norm_num),
   (calculate_rsi_spec [] 14 (by norm_num)).1 (by simp)⟩

namespace TechnicalAnalysis

/-- Exponentially weighted mean with `adjust=False` as computed by pandas
`ewm(span).mean()`: `y 0 = x 0`, `y i = a * x i + (1 - a) * y (i-1)`
where `a = 2 / (span + 1)`.  This is the running tail of the recursion. -/
def ewmaAux (a prev : ℚ) : List ℚ → List ℚ
  | [] => []
  | x :: xs =>
      let y := a * x + (1 - a) * prev
      y :: ewmaAux a y xs

/-- Exponentially weighted mean (see `ewmaAux`): the first output equals
the first input. -/
def ewma (a : ℚ) : List ℚ → List ℚ
  | [] => []
  | x :: xs => x :: ewmaAux a x xs

/-- Result dictionary of `ETHTechnicalAnalysis.calculate_macd`
(src/eth_technical_analysis.py lines 117-122).  The short
`{"signal": "neutral"}` dictionaries of the insufficient-data and error
paths are modelled by `none` numeric fields.  The function never emits a
`previous_histogram` key, hence that field is `none` on every path. -/
structure MacdResult where
  macd_line : Option ℚ
  signal_line : Option ℚ
  histogram : Option ℚ
  signal : String
  previous_histogram : Option ℚ
deriving DecidableEq, Repr

/-- Embedding of `ETHTechnicalAnalysis.calculate_macd`
(src/eth_technical_analysis.py lines 71-126).  The `prices.isEmpty`
disjunct models the `IndexError` raised by `iloc[-1]` on an empty series
(caught by the `except` clause, which returns the short neutral
dictionary); it is reachable only when both periods are zero. -/
def calculate_macd (prices : List ℚ) (fast_period slow_period signal_period : ℕ) :
    MacdResult :=
  if prices.length < slow_period + signal_period ∨ prices.isEmpty then
    ⟨none, none, none, "neutral", none⟩
  else
    let ema_fast := ewma (2 / ((fast_period : ℚ) + 1)) prices
    let ema_slow := ewma (2 / ((slow_period : ℚ) + 1)) prices
    let macd_line := List.zipWith (fun a b => a - b) ema_fast ema_slow
    let signal_line := ewma (2 / ((signal_period : ℚ) + 1)) macd_line
    let histogram := List.zipWith (fun a b => a - b) macd_line signal_line
    let current := histogram.getLastD 0
    let previous := (histogram.get? (histogram.length - 2)).getD 0
    let signal :=
      if histogram.length < 2 then "neutral"
      else if 0 < current ∧ previous < 0 then "buy"
      else if current < 0 ∧ 0 < previous then "sell"
      else "neutral"
    ⟨some (macd_line.getLastD 0), some (signal_line.getLastD 0), some current, signal, none⟩

end TechnicalAnalysis

namespace InvestmentAdvisor

open TechnicalAnalysis

/-- Embedding of `ETHInvestmentAdvisor.evaluate_macd_signal`
(src/eth_investment_advisor.py lines 126-177), returning the
`signal_strength` value; absent dictionary keys default to 0 via
`.get(key, 0)`. -/
def evaluate_macd_signal (macd_data : MacdResult) : ℚ :=
  let macd_line := macd_data.macd_line.getD 0
  let signal_line := macd_data.signal_line.getD 0
  let histogram := macd_data.histogram.getD 0
  let previous := macd_data.previous_histogram.getD 0
  if macd_data.signal = "buy" then
    if macd_line < 0 ∧ signal_line < 0 ∧ 0 < histogram then 2 else 3 / 2
  else if macd_data.signal = "sell" then
    if 0 < macd_line ∧ 0 < signal_line ∧ histogram < 0 then -2 else -(3 / 2)
  else
    if 0 < histogram ∧ |previous| < histogram then 1 / 2
    else if histogram < 0 ∧ |previous| < |histogram| then -(1 / 2)
    else 0

theorem evaluate_macd_signal_neutral (m : MacdResult)
    (hp : m.previous_histogram = none) (hs : m.signal = "neutral") :
    (evaluate_macd_signal m = 1 / 2 ↔ 0 < m.histogram.getD 0) ∧
    (evaluate_macd_signal m = -(1 / 2) ↔ m.histogram.getD 0 < 0) ∧
    (m.histogram.getD 0 = 0 → evaluate_macd_signal m = 0) := by
  unfold evaluate_macd_signal
  rw [hs, hp]
  rw [if_neg (by decide), if_neg (by decide)]
  dsimp only [Option.getD_none]
  rw [abs_zero]
  rcases lt_trichotomy (m.histogram.getD 0) 0 with hneg | hzero | hpos
  · rw [if_neg (by rintro ⟨h, -⟩; exact absurd hneg (asymm h)),
      if_pos ⟨hneg, abs_pos.mpr (ne_of_lt hneg)⟩]
    refine ⟨⟨fun h => absurd h (by norm_num), fun h => absurd hneg (asymm h)⟩,
      ⟨fun _ => hneg, fun _ => rfl⟩, fun h => absurd h (ne_of_lt hneg)⟩
  · rw [hzero]
    rw [if_neg (by rintro ⟨h, -⟩; exact lt_irrefl 0 h),
      if_neg (by rintro ⟨h, -⟩; exact lt_irrefl 0 h)]
    exact ⟨⟨fun h => absurd h (by norm_num), fun h => absurd h (lt_irrefl 0)⟩,
      ⟨fun h => absurd h (by norm_num), fun h => absurd h (lt_irrefl 0)⟩, fun _ => rfl⟩
  · rw [if_pos ⟨hpos, hpos⟩]
    exact ⟨⟨fun _ => hpos, fun _ => rfl⟩,
      ⟨fun h => absurd h (by norm_num), fun h => absurd hpos (asymm h)⟩,
      fun h => absurd h (ne_of_gt hpos)⟩

end InvestmentAdvisor

open InvestmentAdvisor

/-- C10: `calculate_macd` never emits a `previous_histogram` key, so in the
no-crossover case (`signal = "neutral"`) `evaluate_macd_signal` degenerates
to a pure sign test on the current histogram: the default previous
histogram 0 makes the momentum condition `hist > |prev|` equivalent to
`hist > 0` (and symmetrically for the negative side), giving strength
`+1/2` exactly for a positive histogram, `-1/2` exactly for a negative
one, and `0` for a zero histogram. -/
theorem evaluate_macd_signal_degenerate (prices : List ℚ) (fast slow sigp : ℕ) :
    (calculate_macd prices fast slow sigp).previous_histogram = none ∧
    ((calculate_macd prices fast slow sigp).signal = "neutral" →
      (evaluate_macd_signal (calculate_macd prices fast slow sigp) = 1 / 2 ↔
        0 < (calculate_macd prices fast slow sigp).histogram.getD 0) ∧
      (evaluate_macd_signal (calculate_macd prices fast slow sigp) = -(1 / 2) ↔
        (calculate_macd prices fast slow sigp).histogram.getD 0 < 0) ∧
      ((calculate_macd prices fast slow sigp).histogram.getD 0 = 0 →
        evaluate_macd_signal (calculate_macd prices fast slow sigp) = 0)) := by
  have hp : (calculate_macd prices fast slow sigp).previous_histogram = none := by
    unfold calculate_macd
    split
    · rfl
    · rfl
  exact ⟨hp, fun hs => evaluate_macd_signal_neutral _ hp hs⟩

/-- C10 witness: on an empty price series MACD takes the short neutral
path; the defaulted histogram is 0 and the advisor strength is 0. -/
theorem evaluate_macd_signal_degenerate_witness :
    (calculate_macd [] 12 26 9).signal = "neutral" ∧
    evaluate_macd_signal (calculate_macd [] 12 26 9) = 0 :=
  ⟨rfl, (evaluate_macd_signal_degenerate [] 12 26 9).2 rfl |>.2.2 rfl⟩

namespace TechnicalAnalysis

/-- Local-minimum test of the support/resistance scan
(src/eth_technical_analysis.py line 226): the point at `i` is no higher
than the `w` points before it and the `w` points after it.  Call sites
only use `w ≤ i`. -/
def isSupportIdx (l : List ℚ) (w i : ℕ) : Bool :=
  ((l.drop (i - w)).take w).all (fun x => decide (l.getD i 0 ≤ x)) &&
  ((l.drop (i + 1)).take w).all (fun x => decide (l.getD i 0 ≤ x))

/-- Local-maximum test of the support/resistance scan
(src/eth_technical_analysis.py line 230). -/
def isResistanceIdx (l : List ℚ) (w i : ℕ) : Bool :=
  ((l.drop (i - w)).take w).all (fun x => decide (x ≤ l.getD i 0)) &&
  ((l.drop (i + 1)).take w).all (fun x => decide (x ≤ l.getD i 0))

/-- Support candidates: values at interior local minima, scanning
`i ∈ [w, len - w)` (src/eth_technical_analysis.py lines 224-227). -/
def supportLevels (l : List ℚ) (w : ℕ) : List ℚ :=
  (List.range' w (l.length - 2 * w)).filterMap fun i =>
    if isSupportIdx l w i then some (l.getD i 0) else none

/-- Resistance candidates: values at interior local maxima
(src/eth_technical_analysis.py lines 224-231). -/
def resistanceLevels (l : List ℚ) (w : ℕ) : List ℚ :=
  (List.range' w (l.length - 2 * w)).filterMap fun i =>
    if isResistanceIdx l w i then some (l.getD i 0) else none

/-- Embedding of `ETHTechnicalAnalysis.identify_support_resistance`
(src/eth_technical_analysis.py lines 201-255), returning the
`(support, resistance)` lists.  The `prices.isEmpty` disjunct models the
`IndexError` of `prices_array[-1]` on an empty array (reachable only for
`window = 0`), caught by the `except` clause which returns empty lists. -/
def identify_support_resistance (prices : List ℚ) (w : ℕ) : List ℚ × List ℚ :=
  if prices.length < 3 * w ∨ prices.isEmpty then ([], [])
  else
    let current := prices.getLastD 0
    let relevant_support := (supportLevels prices w).filter fun s => decide (s < current)
    let relevant_resistance := (resistanceLevels prices w).filter fun s => decide (current < s)
    ((List.insertionSort (· ≥ ·) relevant_support).take 3,
     (List.insertionSort (· ≤ ·) relevant_resistance).take 3)

end TechnicalAnalysis

/-- C8: `identify_support_resistance` returns two empty lists when fewer
than `3 * window` samples are supplied; each returned support level is
strictly below the most recent price and the support list is descending
with at most 3 entries; each returned resistance level is strictly above
the most recent price and the resistance list is ascending with at most 3
entries. -/
theorem identify_support_resistance_spec (prices : List ℚ) (w : ℕ) :
    (prices.length < 3 * w → identify_support_resistance prices w = ([], [])) ∧
    (∀ x ∈ (identify_support_resistance prices w).1, x < prices.getLastD 0) ∧
    List.Sorted (· ≥ ·) (identify_support_resistance prices w).1 ∧
    (identify_support_resistance prices w).1.length ≤ 3 ∧
    (∀ x ∈ (identify_support_resistance prices w).2, prices.getLastD 0 < x) ∧
    List.Sorted (· ≤ ·) (identify_support_resistance prices w).2 ∧
    (identify_support_resistance prices w).2.length ≤ 3 := by
  unfold identify_support_resistance
  split
  · exact ⟨fun _ => rfl, by simp, by simp, by simp, by simp, by simp, by simp⟩
  · next hguard =>
      refine ⟨fun hlt => absurd (Or.inl hlt) hguard, ?_, ?_, ?_, ?_, ?_, ?_⟩
      · intro x hx
        have hmem := List.mem_of_mem_take hx
        rw [List.mem_insertionSort] at hmem
        simpa using (List.mem_filter.mp hmem).2
      · exact List.Pairwise.sublist (List.take_sublist 3 _)
          (List.sorted_insertionSort (· ≥ ·) _)
      · exact List.length_take_le 3 _
      · intro x hx
        have hmem := List.mem_of_mem_take hx
        rw [List.mem_insertionSort] at hmem
        simpa using (List.mem_filter.mp hmem).2
      · exact List.Pairwise.sublist (List.take_sublist 3 _)
          (List.sorted_insertionSort (· ≤ ·) _)
      · exact List.length_take_le 3 _

/-- C8 witness: an empty series is below every length threshold and
yields empty support and resistance lists. -/
theorem identify_support_resistance_spec_witness :
    (List.length ([] : List ℚ) < 3 * 1) ∧
    identify_support_resistance ([] : List ℚ) 1 = ([], []) :=
  ⟨by decide, (identify_support_resistance_spec [] 1).1 (by decide)⟩

namespace TechnicalAnalysis

/-- Rolling mean with `min_periods = window` as computed by pandas
`rolling(window).mean()`: position `i` holds the mean of the `w` samples
ending at `i`, or `NaN` (here `none`) during the warm-up.  A zero window
is rejected by pandas; it yields `none` everywhere here and the caller
maps it to its error path. -/
def rollingMean (w : ℕ) (l : List ℚ) : List (Option ℚ) :=
  (List.range l.length).map fun i =>
    if 1 ≤ w ∧ w ≤ i + 1 then some (listMean ((l.drop (i + 1 - w)).take w)) else none

/-- Value at `iloc[-1]` of a series with possible `NaN` entries. -/
def ilocLast (l : List (Option ℚ)) : Option ℚ := l.getLast?.join

/-- Value at `iloc[-2]` of a series with possible `NaN` entries (only
meaningful when the series has at least two entries). -/
def ilocPrev (l : List (Option ℚ)) : Option ℚ :=
  if 2 ≤ l.length then (l.get? (l.length - 2)).getD none else none

/-- Result dictionary of `ETHTechnicalAnalysis.check_moving_averages`
(src/eth_technical_analysis.py lines 189-195).  The insufficient-data and
error dictionaries carry only a `signal` key; their numeric fields are
`none` and their absent cross flags read as `False` downstream. -/
structure MAResult where
  ma_short : Option ℚ
  ma_long : Option ℚ
  signal : String
  golden_cross : Bool
  death_cross : Bool
deriving DecidableEq, Repr

/-- Embedding of `ETHTechnicalAnalysis.check_moving_averages`
(src/eth_technical_analysis.py lines 128-199).  A zero window makes
pandas `rolling` raise, landing in the `except` clause (`signal`
"error"); that is the first guard. -/
def check_moving_averages (prices : List ℚ) (ma_short_w ma_long_w : ℕ) : MAResult :=
  if ma_short_w = 0 ∨ ma_long_w = 0 then ⟨none, none, "error", false, false⟩
  else if prices.length < ma_long_w then ⟨none, none, "insufficient_data", false, false⟩
  else
    match ilocLast (rollingMean ma_short_w prices), ilocLast (rollingMean ma_long_w prices) with
    | some sc, some lc =>
        let signal :=
          if prices.length < 3 then if lc < sc then "above" else "below"
          else
            match ilocPrev (rollingMean ma_short_w prices),
                ilocPrev (rollingMean ma_long_w prices) with
            | some sp, some lp =>
                if lc < sc ∧ sp ≤ lp then "golden_cross"
                else if sc < lc ∧ lp ≤ sp then "death_cross"
                else if lc < sc then "above" else "below"
            | _, _ => if lc < sc then "above" else "below"
        ⟨some sc, some lc, signal,
          decide (signal = "golden_cross"), decide (signal = "death_cross")⟩
    | _, _ => ⟨none, none, "insufficient_data", false, false⟩

theorem rollingMean_length (w : ℕ) (l : List ℚ) :
    (rollingMean w l).length = l.length := by
  simp [rollingMean]

theorem ilocLast_rollingMean_zero (l : List ℚ) :
    ilocLast (rollingMean 0 l) = none := by
  unfold ilocLast rollingMean
  rw [List.getLast?_map]
  cases (List.range l.length).getLast? with
  | none => rfl
  | some i => simp

theorem ilocPrev_rollingMean_window (w : ℕ) (l : List ℚ) (x : ℚ)
    (h : ilocPrev (rollingMean w l) = some x) : 1 ≤ w ∧ w ≤ l.length - 1 := by
  unfold ilocPrev at h
  rw [rollingMean_length] at h
  split at h
  · next hlen =>
      have hidx : l.length - 2 < l.length := by omega
      rw [rollingMean, List.get?_map, List.get?_range hidx] at h
      simp only [Option.map_some', Option.getD_some] at h
      split at h
      · next hcond => omega
      · exact absurd h (by simp)
  · exact absurd h (by simp)

theorem ilocLast_rollingMean_short (w : ℕ) (l : List ℚ) (h : l.length < w) :
    ilocLast (rollingMean w l) = none := by
  unfold ilocLast rollingMean
  rw [List.getLast?_map]
  cases hlast : (List.range l.length).getLast? with
  | none => rfl
  | some i =>
      have hi : i < l.length := by
        obtain ⟨hne, heq⟩ :=
          List.mem_getLast?_eq_getLast (Option.mem_def.mpr hlast)
        have hmem := List.getLast_mem hne
        rw [← heq] at hmem
        exact List.mem_range.mp hmem
      have : ¬(1 ≤ w ∧ w ≤ i + 1) := by omega
      simp [this]

end TechnicalAnalysis

/-- C9: `check_moving_averages` never reports both a golden and a death
cross for the same evaluation, and whenever the current and previous
values of both rolling means are defined, the signal is `golden_cross`
exactly when the short mean moved from at most the long mean to strictly
above it, and `death_cross` exactly when it moved from at least the long
mean to strictly below it. -/
theorem check_moving_averages_spec (prices : List ℚ) (ms ml : ℕ) :
    (¬((check_moving_averages prices ms ml).golden_cross = true ∧
       (check_moving_averages prices ms ml).death_cross = true)) ∧
    (∀ sc lc sp lp : ℚ,
      ilocLast (rollingMean ms prices) = some sc →
      ilocLast (rollingMean ml prices) = some lc →
      ilocPrev (rollingMean ms prices) = some sp →
      ilocPrev (rollingMean ml prices) = some lp →
      (((check_moving_averages prices ms ml).signal = "golden_cross" ↔
          lc < sc ∧ sp ≤ lp) ∧
       ((check_moving_averages prices ms ml).signal = "death_cross" ↔
          sc < lc ∧ lp ≤ sp))) := by
  constructor
  · unfold check_moving_averages
    split
    · simp
    · split
      · simp
      · split
        · next sc lc heqs heql =>
            dsimp only
            rintro ⟨h1, h2⟩
            exact absurd ((of_decide_eq_true h1) ▸ (of_decide_eq_true h2)) (by decide)
        · simp
  · intro sc lc sp lp hsc hlc hsp hlp
    have hms1 := ilocPrev_rollingMean_window ms prices sp hsp
    have hml1 := ilocPrev_rollingMean_window ml prices lp hlp
    unfold check_moving_averages
    rw [if_neg (by omega)]
    have hlen : ¬ prices.length < ml := by
      by_contra hcon
      rw [ilocLast_rollingMean_short ml prices (by omega)] at hlc
      exact absurd hlc (by simp)
    rw [if_neg hlen]
    rw [hsc, hlc]
    dsimp only
    by_cases h3 : prices.length < 3
    · -- both previous values defined forces windows of size 1 over a
      -- 2-sample series, so the two rolling means coincide
      have hlen2 : prices.length = 2 := by
        have := hms1.2
        omega
      have hms : ms = 1 := by omega
      have hml : ml = 1 := by omega
      have hscl : sc = lc := by
        rw [hms] at hsc
        rw [hml] at hlc
        rw [hsc] at hlc
        exact Option.some.inj hlc
      rw [if_pos h3]
      subst hscl
      rw [if_neg (lt_irrefl sc)]
      constructor
      · exact ⟨fun h => absurd h (by decide), fun h => absurd h.1 (lt_irrefl sc)⟩
      · exact ⟨fun h => absurd h (by decide), fun h => absurd h.1 (lt_irrefl sc)⟩
    · rw [if_neg h3, hsp, hlp]
      dsimp only
      by_cases h1 : lc < sc ∧ sp ≤ lp
      · rw [if_pos h1]
        refine ⟨⟨fun _ => h1, fun _ => rfl⟩, ⟨fun h => absurd h (by decide), ?_⟩⟩
        rintro ⟨h, -⟩
        exact absurd h1.1 (asymm h)
      · rw [if_neg h1]
        by_cases h2 : sc < lc ∧ lp ≤ sp
        · rw [if_pos h2]
          exact ⟨⟨fun h => absurd h (by decide), fun h => absurd h h1⟩,
            ⟨fun _ => h2, fun _ => rfl⟩⟩
        · rw [if_neg h2]
          split
          · exact ⟨⟨fun h => absurd h (by decide), fun h => absurd h h1⟩,
              ⟨fun h => absurd h (by decide), fun h => absurd h h2⟩⟩
          · exact ⟨⟨fun h => absurd h (by decide), fun h => absurd h h1⟩,
              ⟨fun h => absurd h (by decide), fun h => absurd h h2⟩⟩

/-- C9 witness: prices `[3, 1, 4]` with windows 1 and 2 have all four
rolling-mean values defined and exhibit a golden cross: the short mean
moves from `1 ≤ 2` to `4 > 5/2`. -/
theorem check_moving_averages_spec_witness :
    ilocLast (rollingMean 1 [3, 1, 4]) = some 4 ∧
    ((check_moving_averages [3, 1, 4] 1 2).signal = "golden_cross" ↔
      (5 / 2 : ℚ) < 4 ∧ (1 : ℚ) ≤ 2) := by
  constructor
  · norm_num [ilocLast, rollingMean, listMean, List.range_succ]
  · refine ((check_moving_averages_spec [3, 1, 4] 1 2).2 4 (5/2) 1 2 ?_ ?_ ?_ ?_).1
    · norm_num [ilocLast, rollingMean, listMean, List.range_succ]
    · norm_num [ilocLast, rollingMean, listMean, List.range_succ]
    · norm_num [ilocPrev, rollingMean, listMean, List.range_succ]
    · norm_num [ilocPrev, rollingMean, listMean, List.range_succ]

namespace TechnicalAnalysis

/-- Minimum of a nonempty list, as Python `min`; only applied to nonempty
lists in the source. -/
def listMin : List ℚ → ℚ
  | [] => 0
  | x :: xs => xs.foldl min x

/-- Final recommendation labelling of `analyze_price_data`
(src/eth_technical_analysis.py lines 314-326). -/
def recommendationLabel (buy_signals sell_signals : ℚ) : String :=
  if 2 ≤ buy_signals ∧ sell_signals < buy_signals then
    if 3 ≤ buy_signals then "STRONG BUY" else "BUY"
  else if 2 ≤ sell_signals ∧ buy_signals < sell_signals then
    if 3 ≤ sell_signals then "STRONG SELL" else "SELL"
  else "HOLD"

/-- Result dictionary of `ETHTechnicalAnalysis.analyze_price_data`
(src/eth_technical_analysis.py lines 350-362).  The textual
`explanation` list is not modelled. -/
structure AnalysisResult where
  price : ℚ
  rsi : ℚ
  macd_signal : String
  golden_cross : Bool
  death_cross : Bool
  support_levels : List ℚ
  resistance_levels : List ℚ
  buy_score : ℚ
  sell_score : ℚ
  recommendation : String
deriving DecidableEq, Repr

/-- Embedding of `ETHTechnicalAnalysis.analyze_price_data`
(src/eth_technical_analysis.py lines 257-368) at the default indicator
parameters.  `none` models the empty dictionary returned for an empty
frame, and also the `ZeroDivisionError` path of the support/resistance
proximity test when the current price is zero. -/
def analyze_price_data (prices : List ℚ) : Option AnalysisResult :=
  if prices.isEmpty then none
  else
    let current_price := prices.getLastD 0
    let rsi := calculate_rsi prices 14
    let macd_result := calculate_macd prices 12 26 9
    let ma_result := check_moving_averages prices 50 200
    let sr := identify_support_resistance prices 10
    if current_price = 0 ∧ (sr.1 ≠ [] ∨ sr.2 ≠ []) then none
    else
      let rsi_scores : ℚ × ℚ :=
        if rsi < 30 then (1, 0) else if 70 < rsi then (0, 1) else (0, 0)
      let macd_scores : ℚ × ℚ :=
        if macd_result.signal = "buy" then (1, 0)
        else if macd_result.signal = "sell" then (0, 1) else (0, 0)
      let ma_scores : ℚ × ℚ :=
        if ma_result.signal = "golden_cross" then (2, 0)
        else if ma_result.signal = "death_cross" then (0, 2)
        else if ma_result.signal = "above" then (1 / 2, 0)
        else if ma_result.signal = "below" then (0, 1 / 2) else (0, 0)
      let support_prox : ℚ :=
        if sr.1 ≠ [] ∧ listMin (sr.1.map fun s => |current_price - s|) / current_price < 1 / 20
        then 1 / 2 else 0
      let resistance_prox : ℚ :=
        if sr.2 ≠ [] ∧ listMin (sr.2.map fun r => |current_price - r|) / current_price < 1 / 20
        then 1 / 2 else 0
      let buy_signals := rsi_scores.1 + macd_scores.1 + ma_scores.1 + support_prox
      let sell_signals := rsi_scores.2 + macd_scores.2 + ma_scores.2 + resistance_prox
      some ⟨current_price, rsi, macd_result.signal, ma_result.golden_cross,
        ma_result.death_cross, sr.1, sr.2, buy_signals, sell_signals,
        recommendationLabel buy_signals sell_signals⟩

theorem recommendationLabel_spec (b s : ℚ) :
    (recommendationLabel b s = "STRONG BUY" ↔ 3 ≤ b ∧ s < b) ∧
    (recommendationLabel b s = "BUY" ↔ 2 ≤ b ∧ b < 3 ∧ s < b) ∧
    (recommendationLabel b s = "STRONG SELL" ↔ 3 ≤ s ∧ b < s) ∧
    (recommendationLabel b s = "SELL" ↔ 2 ≤ s ∧ s < 3 ∧ b < s) ∧
    (recommendationLabel b s = "HOLD" ↔
      ¬(2 ≤ b ∧ s < b) ∧ ¬(2 ≤ s ∧ b < s)) := by
  unfold recommendationLabel
  by_cases hb : 2 ≤ b ∧ s < b
  · rw [if_pos hb]
    by_cases hb3 : 3 ≤ b
    · rw [if_pos hb3]
      refine ⟨⟨fun _ => ⟨hb3, hb.2⟩, fun _ => rfl⟩,
        ⟨fun h => absurd h (by decide), fun h => absurd hb3 (not_le.mpr h.2.1)⟩,
        ⟨fun h => absurd h (by decide), fun h => absurd h.2 (asymm hb.2)⟩,
        ⟨fun h => absurd h (by decide), fun h => absurd h.2.2 (asymm hb.2)⟩,
        ⟨fun h => absurd h (by decide), fun h => absurd hb h.1⟩⟩
    · rw [if_neg hb3]
      refine ⟨⟨fun h => absurd h (by decide), fun h => absurd h.1 hb3⟩,
        ⟨fun _ => ⟨hb.1, not_le.mp hb3, hb.2⟩, fun _ => rfl⟩,
        ⟨fun h => absurd h (by decide), fun h => absurd h.2 (asymm hb.2)⟩,
        ⟨fun h => absurd h (by decide), fun h => absurd h.2.2 (asymm hb.2)⟩,
        ⟨fun h => absurd h (by decide), fun h => absurd hb h.1⟩⟩
  · rw [if_neg hb]
    by_cases hs : 2 ≤ s ∧ b < s
    · rw [if_pos hs]
      by_cases hs3 : 3 ≤ s
      · rw [if_pos hs3]
        refine ⟨⟨fun h => absurd h (by decide),
            fun h => absurd ⟨le_trans (by norm_num) h.1, h.2⟩ hb⟩,
          ⟨fun h => absurd h (by decide), fun h => absurd ⟨h.1, h.2.2⟩ hb⟩,
          ⟨fun _ => ⟨hs3, hs.2⟩, fun _ => rfl⟩,
          ⟨fun h => absurd h (by decide), fun h => absurd hs3 (not_le.mpr h.2.1)⟩,
          ⟨fun h => absurd h (by decide), fun h => absurd hs h.2⟩⟩
      · rw [if_neg hs3]
        refine ⟨⟨fun h => absurd h (by decide),
            fun h => absurd ⟨le_trans (by norm_num) h.1, h.2⟩ hb⟩,
          ⟨fun h => absurd h (by decide), fun h => absurd ⟨h.1, h.2.2⟩ hb⟩,
          ⟨fun h => absurd h (by decide), fun h => absurd h.1 hs3⟩,
          ⟨fun _ => ⟨hs.1, not_le.mp hs3, hs.2⟩, fun _ => rfl⟩,
          ⟨fun h => absurd h (by decide), fun h => absurd hs h.2⟩⟩
    · rw [if_neg hs]
      refine ⟨⟨fun h => absurd h (by decide),
          fun h => absurd ⟨le_trans (by norm_num) h.1, h.2⟩ hb⟩,
        ⟨fun h => absurd h (by decide), fun h => absurd ⟨h.1, h.2.2⟩ hb⟩,
        ⟨fun h => absurd h (by decide),
          fun h => absurd ⟨le_trans (by norm_num) h.1, h.2⟩ hs⟩,
        ⟨fun h => absurd h (by decide), fun h => absurd ⟨h.1, h.2.2⟩ hs⟩,
        ⟨fun _ => ⟨hb, hs⟩, fun _ => rfl⟩⟩

theorem analyze_price_data_recommendation (prices : List ℚ) (r : AnalysisResult)
    (h : analyze_price_data prices = some r) :
    r.recommendation = recommendationLabel r.buy_score r.sell_score := by
  unfold analyze_price_data at h
  split at h
  · exact absurd h (by simp)
  · dsimp only at h
    split at h
    · exact absurd h (by simp)
    · rw [← Option.some.inj h]

end TechnicalAnalysis

/-- C4: every analysis produced by `analyze_price_data` is labelled
`STRONG BUY` exactly when `buy_score ≥ 3` and `buy_score > sell_score`,
`BUY` exactly when `2 ≤ buy_score < 3` and `buy_score > sell_score`,
symmetrically for the sell labels, and `HOLD` in every other case; in
particular equal scores always yield `HOLD`. -/
theorem analyze_price_data_spec (prices : List ℚ) (r : AnalysisResult)
    (h : analyze_price_data prices = some r) :
    (r.recommendation = "STRONG BUY" ↔ 3 ≤ r.buy_score ∧ r.sell_score < r.buy_score) ∧
    (r.recommendation = "BUY" ↔
      2 ≤ r.buy_score ∧ r.buy_score < 3 ∧ r.sell_score < r.buy_score) ∧
    (r.recommendation = "STRONG SELL" ↔ 3 ≤ r.sell_score ∧ r.buy_score < r.sell_score) ∧
    (r.recommendation = "SELL" ↔
      2 ≤ r.sell_score ∧ r.sell_score < 3 ∧ r.buy_score < r.sell_score) ∧
    (r.recommendation = "HOLD" ↔
      ¬(2 ≤ r.buy_score ∧ r.sell_score < r.buy_score) ∧
      ¬(2 ≤ r.sell_score ∧ r.buy_score < r.sell_score)) ∧
    (r.buy_score = r.sell_score → r.recommendation = "HOLD") := by
  rw [analyze_price_data_recommendation prices r h]
  obtain ⟨h1, h2, h3, h4, h5⟩ := recommendationLabel_spec r.buy_score r.sell_score
  refine ⟨h1, h2, h3, h4, h5, fun heq => h5.mpr ?_⟩
  rw [heq]
  exact ⟨fun hc => lt_irrefl _ hc.2, fun hc => lt_irrefl _ hc.2⟩

/-- C4 witness: the one-sample series `[1]` produces an analysis with
both scores 0 and recommendation `HOLD`. -/
theorem analyze_price_data_spec_witness :
    analyze_price_data [1] =
      some ⟨1, 50, "neutral", false, false, [], [], 0, 0, "HOLD"⟩ ∧
    (AnalysisResult.recommendation
        ⟨1, 50, "neutral", false, false, [], [], 0, 0, "HOLD"⟩ = "HOLD" ↔
      ¬(2 ≤ AnalysisResult.buy_score ⟨1, 50, "neutral", false, false, [], [], 0, 0, "HOLD"⟩ ∧
          AnalysisResult.sell_score ⟨1, 50, "neutral", false, false, [], [], 0, 0, "HOLD"⟩ <
            AnalysisResult.buy_score ⟨1, 50, "neutral", false, false, [], [], 0, 0, "HOLD"⟩) ∧
      ¬(2 ≤ AnalysisResult.sell_score ⟨1, 50, "neutral", false, false, [], [], 0, 0, "HOLD"⟩ ∧
          AnalysisResult.buy_score ⟨1, 50, "neutral", false, false, [], [], 0, 0, "HOLD"⟩ <
            AnalysisResult.sell_score ⟨1, 50, "neutral", false, false, [], [], 0, 0, "HOLD"⟩)) := by
  have heval : analyze_price_data [1] =
      some ⟨1, 50, "neutral", false, false, [], [], 0, 0, "HOLD"⟩ := by
    simp [analyze_price_data, calculate_rsi, calculate_macd,
      check_moving_averages, identify_support_resistance, recommendationLabel]
    norm_num
  exact ⟨heval, (analyze_price_data_spec [1] _ heval).2.2.2.2.1⟩

namespace PerformanceTracker

/-- One record of the decision log
(src/eth_performance_tracker.py, `self.decisions`): dates are modelled as
sortable keys. -/
structure Decision where
  date : ℕ
  price : ℚ
  recommendation : String
deriving DecidableEq, Repr

/-- One record of the trade ledger
(src/eth_performance_tracker.py, `self.trades`); only the fields the
decision-accuracy computation can observe are modelled. -/
structure Trade where
  date : ℕ
  price : ℚ
  trade_type : String
deriving DecidableEq, Repr

/-- Time-ordering of the decision log, as `sort_values("date")`. -/
def sortDecisions (ds : List Decision) : List Decision :=
  List.insertionSort (fun a b => a.date ≤ b.date) ds

/-- Correctness test for one decision against its successor
(src/eth_performance_tracker.py lines 338-343). -/
def decisionCorrect (cur next : Decision) : Bool :=
  let price_change := (next.price - cur.price) / cur.price
  (cur.recommendation == "BUY" && decide (1 / 50 < price_change)) ||
  (cur.recommendation == "SELL" && decide (price_change < -(1 / 50))) ||
  (cur.recommendation == "HOLD" && decide (|price_change| < 1 / 20))

/-- Projection of `ETHPerformanceTracker.calculate_performance_metrics`
(src/eth_performance_tracker.py lines 214-356) onto its
`decision_accuracy` field.  The metrics dictionary is only produced when
the trade ledger is non-empty (else the early error return); the
decision block runs whenever the decision log is non-empty, pairing each
decision with its immediate successor in date order (the final decision
is never evaluated and the supplied current price is unused), and the
accuracy key is added only when at least one pair was evaluated.  A zero
price in an evaluated decision raises `ZeroDivisionError`, which the
`except` clause turns into no metrics at all (`none` here).  Metric
fields not affecting this key (volatility, Sharpe, drawdown, annualized
return — wall-clock and float-power based) are not modelled. -/
def decision_accuracy (trades : List Trade) (decisions : List Decision) : Option ℚ :=
  if trades.isEmpty then none
  else if decisions.isEmpty then none
  else
    let ds := sortDecisions decisions
    let pairs := ds.zip ds.tail
    if pairs.any fun p => decide (p.1.price = 0) then none
    else if 0 < pairs.length then
      some ((pairs.countP (fun p => decisionCorrect p.1 p.2) : ℚ) / pairs.length)
    else none

theorem decisionCorrect_iff (a b : Decision) :
    decisionCorrect a b = true ↔
      ((a.recommendation = "BUY" ∧ 1 / 50 < (b.price - a.price) / a.price) ∨
       (a.recommendation = "SELL" ∧ (b.price - a.price) / a.price < -(1 / 50)) ∨
       (a.recommendation = "HOLD" ∧ |(b.price - a.price) / a.price| < 1 / 20)) := by
  unfold decisionCorrect
  simp [Bool.or_eq_true, Bool.and_eq_true, beq_iff_eq, or_assoc]

theorem sortDecisions_length (ds : List Decision) :
    (sortDecisions ds).length = ds.length := by
  simp [sortDecisions]

theorem zip_tail_length (ds : List Decision) :
    (ds.zip ds.tail).length = ds.length - 1 := by
  rw [List.length_zip, List.length_tail]
  omega

end PerformanceTracker

open PerformanceTracker

/-- C3 counterexample: `calculate_performance_metrics` computes a decision
accuracy with a single trade on the ledger — the ≥30-trade gate guards
only the volatility/Sharpe/drawdown block, not decision accuracy. -/
theorem decision_accuracy_one_trade_counterexample :
    decision_accuracy [⟨0, 100, "buy"⟩] [⟨1, 100, "BUY"⟩, ⟨2, 103, "SELL"⟩] =
      some 1 ∧
    ([(⟨0, 100, "buy"⟩ : Trade)].length < 30) := by
  constructor
  · unfold decision_accuracy sortDecisions
    norm_num [List.insertionSort, List.orderedInsert, decisionCorrect, List.countP,
      List.countP.go]
  · decide

/-- C3 (amended): whenever the trade ledger is non-empty, every decision
price is nonzero and at least two decisions exist,
`calculate_performance_metrics` reports a decision accuracy equal to the
number of correct decisions — a decision being correct exactly when (BUY
and the price change to its immediate successor in date order exceeds
+2%) or (SELL and the change is below −2%) or (HOLD and the absolute
change is below 5%) — divided by the number of evaluated decisions,
which is the number of decisions minus one: the final decision is not
evaluated and the supplied current price is not used. -/
theorem decision_accuracy_spec (trades : List Trade) (decisions : List Decision)
    (ht : trades ≠ []) (hnz : ∀ d ∈ decisions, d.price ≠ 0)
    (h2 : 2 ≤ decisions.length) :
    decision_accuracy trades decisions =
      some ((((sortDecisions decisions).zip (sortDecisions decisions).tail).countP
          (fun p => decide
            ((p.1.recommendation = "BUY" ∧ 1 / 50 < (p.2.price - p.1.price) / p.1.price) ∨
             (p.1.recommendation = "SELL" ∧ (p.2.price - p.1.price) / p.1.price < -(1 / 50)) ∨
             (p.1.recommendation = "HOLD" ∧
               |(p.2.price - p.1.price) / p.1.price| < 1 / 20))) : ℚ) /
        (decisions.length - 1 : ℕ)) := by
  unfold decision_accuracy
  rw [if_neg (by simpa using ht),
    if_neg (by simp only [List.isEmpty_iff]; rintro rfl; simp at h2)]
  have hlen : ((sortDecisions decisions).zip (sortDecisions decisions).tail).length =
      decisions.length - 1 := by
    rw [zip_tail_length, sortDecisions_length]
  rw [if_neg ?hzero]
  case hzero =>
    simp only [List.any_eq_true, not_exists, not_and, decide_eq_true_eq]
    intro p hp
    have hmem := (List.mem_zip hp).1
    have : p.1 ∈ decisions := by
      have := List.mem_insertionSort (fun a b => a.date ≤ b.date)
        (l := decisions) (x := p.1)
      exact this.mp hmem
    intro hfalse
    exact absurd hfalse (hnz p.1 this)
  rw [if_pos (by omega : 0 < ((sortDecisions decisions).zip (sortDecisions decisions).tail).length)]
  rw [hlen]
  congr 1
  rw [List.countP_congr]
  intro p hp
  rw [decisionCorrect_iff, decide_eq_true_eq]

/-- C3 witness: the amended statement applied to one trade and two
decisions with a +3% move. -/
theorem decision_accuracy_spec_witness :
    decision_accuracy [⟨0, 100, "buy"⟩] [⟨10, 100, "BUY"⟩, ⟨20, 103, "HOLD"⟩] =
      some ((((sortDecisions [⟨10, 100, "BUY"⟩, ⟨20, 103, "HOLD"⟩]).zip
          (sortDecisions [⟨10, 100, "BUY"⟩, ⟨20, 103, "HOLD"⟩]).tail).countP
          (fun p => decide
            ((p.1.recommendation = "BUY" ∧ 1 / 50 < (p.2.price - p.1.price) / p.1.price) ∨
             (p.1.recommendation = "SELL" ∧ (p.2.price - p.1.price) / p.1.price < -(1 / 50)) ∨
             (p.1.recommendation = "HOLD" ∧
               |(p.2.price - p.1.price) / p.1.price| < 1 / 20))) : ℚ) /
        (([⟨10, 100, "BUY"⟩, ⟨20, 103, "HOLD"⟩] : List Decision).length - 1 : ℕ)) :=
  decision_accuracy_spec [⟨0, 100, "buy"⟩] [⟨10, 100, "BUY"⟩, ⟨20, 103, "HOLD"⟩]
    (by simp)
    (by intro d hd; rcases List.mem_cons.mp hd with rfl | hd
        · norm_num
        · rcases List.mem_cons.mp hd with rfl | hd
          · norm_num
          · simp at hd)
    (by simp)

namespace RiskManager

open TechnicalAnalysis

/-- True-range proxy of the ATR computation
(src/eth_risk_manager.py lines 149-159): 2-sample rolling high/low and
the previous close, combined by a NaN-skipping row maximum; the first
row, where all three terms are NaN, stays NaN (`none`). -/
def trueRange (l : List ℚ) : List (Option ℚ) :=
  (List.range l.length).map fun i =>
    if i = 0 then none
    else
      let hi := max (l.getD (i - 1) 0) (l.getD i 0)
      let lo := min (l.getD (i - 1) 0) (l.getD i 0)
      let prev_close := l.getD (i - 1) 0
      some (max (max (hi - lo) |hi - prev_close|) |lo - prev_close|)

/-- Average true range: `true_range.rolling(window=14).mean().iloc[-1]`
(src/eth_risk_manager.py line 160).  `none` models the NaN produced when
fewer than 14 rows exist or the 14-row window still contains the leading
NaN true range (exactly the 14-sample case). -/
def atr (l : List ℚ) : Option ℚ :=
  let tr := trueRange l
  let wind := tr.drop (tr.length - 14)
  if wind.length = 14 ∧ wind.all Option.isSome then
    some ((wind.filterMap id).sum / 14)
  else none

/-- One stop-loss method entry of the `methods` dictionary
(src/eth_risk_manager.py lines 140-200); `none` fields model NaN values
propagated from a NaN ATR.  The `atr_value` and `explanation` entries are
not modelled. -/
structure SLMethod where
  stop_price : Option ℚ
  risk_amount : Option ℚ
  risk_percentage : Option ℚ
deriving DecidableEq, Repr

/-- Result dictionary of `ETHRiskManager.calculate_stop_loss`
(src/eth_risk_manager.py lines 130-217). -/
structure StopLossResult where
  entry_price : ℚ
  fixed_percentage : SLMethod
  atr_based : Option SLMethod
  support_based : Option SLMethod
  recommended_method : String
  recommended_stop_price : Option ℚ
deriving DecidableEq, Repr

/-- NaN-aware `x <= c` test: a Python float comparison against NaN is
false. -/
def oleB (x : Option ℚ) (c : ℚ) : Bool :=
  match x with
  | some v => decide (v ≤ c)
  | none => false

/-- Python `max` of a list, `none` on the empty list (where Python would
raise; callers guard on nonemptiness). -/
def maxQ : List ℚ → Option ℚ
  | [] => none
  | x :: xs => some (xs.foldl max x)

/-- Test used to pick the recommended method
(src/eth_risk_manager.py lines 203-206): the method is present and its
risk percentage is at most 10%. -/
def methodOk (m : Option SLMethod) : Bool :=
  match m with
  | some mm => oleB mm.risk_percentage (1 / 10)
  | none => false

/-- Embedding of `ETHRiskManager.calculate_stop_loss`
(src/eth_risk_manager.py lines 116-234).  `historical_prices = none`
models passing `None`.  The interior-local-minimum support scan of lines
181-184 is the same rule as the technical-analysis module's, at window 5,
so it is shared as `TechnicalAnalysis.supportLevels`.  Faithful to the
Python happy path for positive entry prices (a zero entry price would
raise and take the fallback path). -/
def calculate_stop_loss (entry_price : ℚ) (historical_prices : Option (List ℚ))
    (atr_multiplier fixed_percentage : ℚ) : StopLossResult :=
  let fixed_stop := entry_price * (1 - fixed_percentage)
  let fixed_risk := entry_price - fixed_stop
  let fixedM : SLMethod := ⟨some fixed_stop, some fixed_risk, some (fixed_risk / entry_price)⟩
  let methods : Option SLMethod × Option SLMethod :=
    match historical_prices with
    | none => (none, none)
    | some l =>
        if 14 ≤ l.length then
          let a := atr l
          let atr_stop := a.map fun v => entry_price - v * atr_multiplier
          let atr_risk := atr_stop.map fun s => entry_price - s
          let atrM : SLMethod := ⟨atr_stop, atr_risk, atr_risk.map fun r => r / entry_price⟩
          let supM : Option SLMethod :=
            if 30 ≤ l.length then
              match maxQ ((supportLevels l 5).filter fun s => decide (s < entry_price)) with
              | some closest =>
                  some ⟨some closest, some (entry_price - closest),
                    some ((entry_price - closest) / entry_price)⟩
              | none => none
            else none
          (some atrM, supM)
        else (none, none)
  let recommended :=
    if methodOk methods.1 then "atr_based"
    else if methodOk methods.2 then "support_based"
    else "fixed_percentage"
  let recommended_stop :=
    if recommended = "atr_based" then (methods.1.map SLMethod.stop_price).getD none
    else if recommended = "support_based" then (methods.2.map SLMethod.stop_price).getD none
    else fixedM.stop_price
  ⟨entry_price, fixedM, methods.1, methods.2, recommended, recommended_stop⟩

theorem maxQ_isSome (l : List ℚ) : (maxQ l).isSome = true ↔ l ≠ [] := by
  cases l <;> simp [maxQ]

end RiskManager

/-- C2: for positive entry prices `calculate_stop_loss` always carries the
fixed-percentage method with stop `entry * (1 - fixed_percentage)`; the
ATR method is present exactly when a history of at least 14 samples is
supplied; the support method exactly when the history has at least 30
samples and some interior local-minimum support lies below entry; and the
recommended method is `atr_based` when that method is present with risk
percentage at most 10%, else `support_based` under the same test, else
`fixed_percentage` — where "present with risk at most 10%" is the
`methodOk` test, spelled out in the last conjunct. -/
theorem calculate_stop_loss_spec (entry : ℚ) (hist : Option (List ℚ))
    (mult fp : ℚ) (hpos : 0 < entry) :
    (calculate_stop_loss entry hist mult fp).fixed_percentage.stop_price =
      some (entry * (1 - fp)) ∧
    ((calculate_stop_loss entry hist mult fp).atr_based.isSome = true ↔
      ∃ l, hist = some l ∧ 14 ≤ l.length) ∧
    ((calculate_stop_loss entry hist mult fp).support_based.isSome = true ↔
      ∃ l, hist = some l ∧ 30 ≤ l.length ∧
        ∃ s ∈ TechnicalAnalysis.supportLevels l 5, s < entry) ∧
    (calculate_stop_loss entry hist mult fp).recommended_method =
      (if methodOk (calculate_stop_loss entry hist mult fp).atr_based then "atr_based"
       else if methodOk (calculate_stop_loss entry hist mult fp).support_based then
         "support_based"
       else "fixed_percentage") ∧
    (∀ m : Option RiskManager.SLMethod, methodOk m = true ↔
      ∃ mm v, m = some mm ∧ mm.risk_percentage = some v ∧ v ≤ 1 / 10) := by
  refine ⟨rfl, ?_, ?_, rfl, ?_⟩
  · cases hist with
    | none => simp [calculate_stop_loss]
    | some l =>
        unfold calculate_stop_loss
        dsimp only
        by_cases hl : 14 ≤ l.length
        · rw [if_pos hl]
          simpa using hl
        · rw [if_neg hl]
          simpa using hl
  · cases hist with
    | none => simp [calculate_stop_loss]
    | some l =>
        unfold calculate_stop_loss
        dsimp only
        by_cases hl : 14 ≤ l.length
        · rw [if_pos hl]
          dsimp only
          by_cases h30 : 30 ≤ l.length
          · rw [if_pos h30]
            rcases hmax : maxQ (List.filter (fun s => decide (s < entry))
                (TechnicalAnalysis.supportLevels l 5)) with - | closest
            · have hempty : List.filter (fun s => decide (s < entry))
                  (TechnicalAnalysis.supportLevels l 5) = [] := by
                by_contra hne
                have hsome := (maxQ_isSome _).mpr hne
                rw [hmax] at hsome
                simp at hsome
              refine ⟨fun h => absurd h (by simp), ?_⟩
              rintro ⟨l', hl', -, s, hs, hslt⟩
              cases Option.some.inj hl'
              have hnot := List.filter_eq_nil.mp hempty s hs
              simp only [decide_eq_true_eq] at hnot
              exact absurd hslt hnot
            · have hne : List.filter (fun s => decide (s < entry))
                  (TechnicalAnalysis.supportLevels l 5) ≠ [] := by
                intro hnil
                rw [hnil] at hmax
                simp [maxQ] at hmax
              obtain ⟨s, hs⟩ := List.exists_mem_of_ne_nil _ hne
              have hmem := List.mem_filter.mp hs
              exact ⟨fun _ => ⟨l, rfl, h30, s, hmem.1, by simpa using hmem.2⟩,
                fun _ => rfl⟩
          · rw [if_neg h30]
            refine ⟨fun h => absurd h (by simp), ?_⟩
            rintro ⟨l', hl', h30', -⟩
            cases Option.some.inj hl'
            exact absurd h30' h30
        · rw [if_neg hl]
          refine ⟨fun h => absurd h (by simp), ?_⟩
          rintro ⟨l', hl', h30', -⟩
          cases Option.some.inj hl'
          exact absurd (le_trans (by norm_num) h30') hl
  · intro m
    cases m with
    | none => simp [methodOk]
    | some mm =>
        cases hrp : mm.risk_percentage with
        | none => simp [methodOk, RiskManager.oleB, hrp]
        | some v => simp [methodOk, RiskManager.oleB, hrp]

/-- C2 witness: with no history only the fixed-percentage method exists;
its stop price is 5% below a 100 entry. -/
theorem calculate_stop_loss_spec_witness :
    (calculate_stop_loss 100 none 2 (1 / 20)).fixed_percentage.stop_price =
      some (100 * (1 - 1 / 20)) ∧
    ((calculate_stop_loss 100 none 2 (1 / 20)).atr_based.isSome = true ↔
      ∃ l, (none : Option (List ℚ)) = some l ∧ 14 ≤ l.length) :=
  ⟨(calculate_stop_loss_spec 100 none 2 (1 / 20) (by norm_num)).1,
   (calculate_stop_loss_spec 100 none 2 (1 / 20) (by norm_num)).2.1⟩
